import Mathlib

/-
Verification development for the imSim sensor readout engine
(imsim/readout.py and imsim/camera.py), shallowly embedded in Lean 4.
Machine floats are modelled by exact rationals; numpy arrays by lists of
rationals; Python dicts by association lists in insertion order.
-/

namespace ImSim

/- ----------------------------------------------------------------- -/
/- Definitions                                                       -/
/- ----------------------------------------------------------------- -/

/-- Embedding of readout.cte_matrix as an entry function on 0-indexed
row r and column c of the npix x npix matrix.  The source loops over
1-indexed i from 1 to npix and sets, in row i-1:
the diagonal entry [i-1][i-1] = (1-cti)^i, and for 1-indexed j in
[max(1, i-ntransfers), i-1] the entry [i-1][j-1] =
binom(i-1, i-j) * (1-cti)^j * cti^(i-j).  All other entries of the
zero-initialized matrix stay 0. -/
def cte_matrix (npix : Nat) (cti : ℚ) (ntransfers : Nat) (r c : Nat) : ℚ :=
  if r < npix ∧ c < npix then
    if c + 1 = r + 1 then (1 - cti) ^ (r + 1)
    else if max 1 (r + 1 - ntransfers) ≤ c + 1 ∧ c + 1 < r + 1 then
      (Nat.choose (r + 1 - 1) (r + 1 - (c + 1)) : ℚ) * (1 - cti) ^ (c + 1) *
        cti ^ (r + 1 - (c + 1))
    else 0
  else 0

/-- Sum of row r of the cte_matrix. -/
def cte_row_sum (npix : Nat) (cti : ℚ) (ntransfers : Nat) (r : Nat) : ℚ :=
  ((List.range npix).map (fun c => cte_matrix npix cti ntransfers r c)).sum

/-- Embedding of the operator construction in CcdReadout.__init__:
the serial (or parallel) CTE matrix is None when the cti value is 0,
and otherwise cte_matrix built with the default ntransfers = 20. -/
def cte_matrix_opt (n : Nat) (cti : ℚ) : Option (Nat → Nat → ℚ) :=
  if cti = 0 then none else some (cte_matrix n cti 20)

/-- Matrix-vector product M @ v for a square matrix presented as an
entry function, acting on a vector of length v.length. -/
def matVecMul (M : Nat → Nat → ℚ) (v : List ℚ) : List ℚ :=
  (List.range v.length).map
    (fun r => ((List.range v.length).map (fun c => M r c * v.getD c 0)).sum)

/-- Column c of a 2-dimensional array stored as a list of rows. -/
def colOf (arr : List (List ℚ)) (c : Nat) : List ℚ :=
  arr.map (fun row => row.getD c 0)

/-- One parallel-CTE pass: every column of the array is replaced by the
matrix product of M with that column (full_arr[:, col] = M @ full_arr[:, col]
for every col). -/
def applyPcte (M : Nat → Nat → ℚ) (arr : List (List ℚ)) : List (List ℚ) :=
  (List.range arr.length).map
    (fun r => (List.range (arr.getD r []).length).map
      (fun c => (matVecMul M (colOf arr c)).getD r 0))

/-- Embedding of CcdReadout.apply_cte on one amp array: if the parallel
matrix is present it is applied to every column, then if the serial
matrix is present it is applied to every row; a missing matrix (built
from cti = 0) skips its pass. -/
def apply_cte (pcte scte : Option (Nat → Nat → ℚ)) (arr : List (List ℚ)) :
    List (List ℚ) :=
  let a1 := match pcte with
    | none => arr
    | some M => applyPcte M arr
  match scte with
  | none => a1
  | some M => a1.map (fun row => matVecMul M row)

/-- Elementwise sum of two same-shape arrays (numpy +). -/
def zipAdd (a b : List ℚ) : List ℚ := List.zipWith (· + ·) a b

/-- Embedding of the Python builtin sum over a list of numpy arrays:
sum starts from the scalar 0, and 0 + x broadcasts to x, so a nonempty
list folds elementwise addition from its head; the empty sum is the
scalar 0, signalled here by none. -/
def npSum : List (List ℚ) → Option (List ℚ)
  | [] => none
  | x :: xs => some (xs.foldl zipAdd x)

/-- Embedding of CcdReadout.apply_crosstalk: with no crosstalk matrix
the input list is returned unchanged; otherwise, for each row of the
matrix (enumerate), the output amp is
amp_arrays[amp_index] + sum(x * y for x, y in zip(amp_arrays, xtalk_row)). -/
def apply_crosstalk (xtalk : Option (List (List ℚ)))
    (amp_arrays : List (List ℚ)) : List (List ℚ) :=
  match xtalk with
  | none => amp_arrays
  | some rows =>
    (List.enum rows).map (fun p =>
      let terms := (amp_arrays.zip p.2).map
        (fun q => q.1.map (fun v => v * q.2))
      match npSum terms with
      | none => amp_arrays.getD p.1 []
      | some s => zipAdd (amp_arrays.getD p.1 []) s)

/-- Embedding of the readout flips applied to one amp array in
CcdReadout.build_amp_images: amp_data[:, ::-1] when raw_flip_x (reverse
every row, i.e. the column order) followed by amp_data[::-1, :] when
raw_flip_y (reverse the row order). -/
def raw_flip (flip_x flip_y : Bool) (a : List (List ℚ)) : List (List ℚ) :=
  let a1 := if flip_x then a.map List.reverse else a
  if flip_y then a1.reverse else a1

/-- Embedding of the bias and read-noise stage of
CcdReadout.build_amp_images.  amp_read_noises is the list of read_noise
values of self.ccd.values() in order, amp_images is the list of full
segments entering the stage, and draw models galsim.CCDNoise: it maps
the read_noise value handed to the CCDNoise constructor and a segment
to the segment with noise added.  In the source the construction loop
is `for amp_data, amp in zip(amp_arrays, self.ccd.values())`, so after
it the variable amp holds the amp of the LAST zip pair, and the noise
loop `for full_segment in self.amp_images` reuses that stale variable:
every segment gets bias_level added and then noise drawn with the last
read_noise value.  With no amps the name amp would be unbound
(NameError), modelled as none. -/
def add_bias_and_read_noise (bias_level : ℚ)
    (amp_images : List (List (List ℚ))) (amp_read_noises : List ℚ)
    (draw : ℚ → List (List ℚ) → List (List ℚ)) :
    Option (List (List (List ℚ))) :=
  match (amp_images.zip amp_read_noises).getLast? with
  | none => none
  | some q =>
    some (amp_images.map (fun seg =>
      draw q.2 (seg.map (fun row => row.map (fun v => v + bias_level)))))

/-- Pixel bounds rectangle (galsim.BoundsI built by camera.get_gs_bounds). -/
structure Bounds where
  xmin : Int
  xmax : Int
  ymin : Int
  ymax : Int
deriving DecidableEq

/-- Embedding of camera.Amp: every attribute set to None in __init__,
carried as an Option.  The wrapped lsst_amp handle is opaque, modelled
by a Nat tag. -/
structure Amp where
  bounds : Option Bounds
  raw_flip_x : Option Bool
  raw_flip_y : Option Bool
  gain : Option ℚ
  raw_bounds : Option Bounds
  raw_data_bounds : Option Bounds
  read_noise : Option ℚ
  bias_level : Option ℚ
  lsst_amp : Option Nat
deriving DecidableEq

/-- A freshly constructed Amp() with every attribute None. -/
def Amp.init : Amp :=
  ⟨none, none, none, none, none, none, none, none, none⟩

/-- Embedding of Amp.update: self.__dict__.update(other.__dict__)
overwrites every attribute of self with the attribute of other (all
nine keys are present in other.__dict__ after Amp.__init__). -/
def Amp.update (_self other : Amp) : Amp :=
  { bounds := other.bounds
    raw_flip_x := other.raw_flip_x
    raw_flip_y := other.raw_flip_y
    gain := other.gain
    raw_bounds := other.raw_bounds
    raw_data_bounds := other.raw_data_bounds
    read_noise := other.read_noise
    bias_level := other.bias_level
    lsst_amp := other.lsst_amp }

/-- Lookup in a Python dict modelled as an association list in
insertion order. -/
def dlookup (k : String) : List (String × α) → Option α
  | [] => none
  | p :: ps => if p.1 = k then some p.2 else dlookup k ps

/-- Python dict item assignment d[k] = v: an existing key keeps its
position in insertion order, a new key is appended at the end. -/
def dictSet (m : List (String × α)) (k : String) (v : α) : List (String × α) :=
  if (dlookup k m).isSome then
    m.map (fun p => if p.1 = k then (k, v) else p)
  else m ++ [(k, v)]

/-- Embedding of the dict-merging loop shared by CCD.update and
Camera.update: for key, value in other.items(): if not key in self:
self[key] = init; self[key].update(value).  The value stored at key is
upd applied to the existing entry (or a fresh init) and to the entry of
other. -/
def pyDictUpdate (init : α) (upd : α → α → α)
    (self other : List (String × α)) : List (String × α) :=
  other.foldl
    (fun acc kv => dictSet acc kv.1 (upd ((dlookup kv.1 acc).getD init) kv.2))
    self

/-- Embedding of camera.CCD: a dict from amp name to Amp plus the
attributes set in CCD.__init__ (bounds, xtalk, lsst_detector). -/
structure CCD where
  bounds : Option Bounds
  xtalk : Option (List (List ℚ))
  lsst_detector : Option Nat
  amps : List (String × Amp)
deriving DecidableEq

/-- A freshly constructed CCD() with no amps and all attributes None. -/
def CCD.init : CCD := ⟨none, none, none, []⟩

/-- Embedding of CCD.update: self.__dict__.update(other.__dict__)
overwrites the CCD-level attributes with those of other, then the amp
dict is merged in place key by key (missing keys start from Amp()). -/
def CCD.update (self other : CCD) : CCD :=
  { bounds := other.bounds
    xtalk := other.xtalk
    lsst_detector := other.lsst_detector
    amps := pyDictUpdate Amp.init Amp.update self.amps other.amps }

/-- Embedding of camera.Camera: a dict from CCD name to CCD plus the
lsst_camera attribute (opaque handle). -/
structure Camera where
  lsst_camera : Option Nat
  ccds : List (String × CCD)
deriving DecidableEq

/-- Embedding of Camera.update.  The Python method mutates self in
place and returns None; the embedding returns the post-state of the
receiver.  CCD entries of other are merged into the receiver dict key
by key (missing keys start from CCD()). -/
def Camera.update (self other : Camera) : Camera :=
  { lsst_camera := other.lsst_camera
    ccds := pyDictUpdate CCD.init CCD.update self.ccds other.ccds }

/-- The numeric and string fields of the input eimage header that
get_primary_hdu reads.  Fields used only through external time and WCS
collaborators (isot formatting, rotation angle) are out of scope. -/
structure EImageHeader where
  obsid : String
  mjd : ℚ
  seqnum : Int
  exptime : ℚ
  imgtype : String
  det_name : String
  camera : String
  ratel : ℚ
  dectel : ℚ
  rottelpos : ℚ
  filter : String
  mjd_obs : ℚ
  hastart : ℚ
  haend : ℚ
  amstart : ℚ
  amend : ℚ
deriving DecidableEq

/-- The directly computed keywords of the primary HDU header. -/
structure PrimaryHeader where
  runnum : String
  obsid : String
  mjd : ℚ
  exptime : ℚ
  darktime : ℚ
  seqnum : Int
  monowl : Int
  imgtype : String
  filter : String
  mjd_obs : ℚ
  mjd_end : ℚ
  hastart : ℚ
  haend : ℚ
  amstart : ℚ
  amend : ℚ
  chipid : String
deriving DecidableEq

/-- Embedding of the arithmetic and copied keywords of
readout.get_primary_hdu.  The source sets EXPTIME from the eimage
header and then DARKTIME to that same exptime value; MJD-END for the
DATE-END keyword is mjd_obs + exptime/86400. -/
def get_primary_hdu (h : EImageHeader) : PrimaryHeader :=
  { runnum := h.obsid
    obsid := h.obsid
    mjd := h.mjd
    exptime := h.exptime
    darktime := h.exptime
    seqnum := h.seqnum
    monowl := -1
    imgtype := h.imgtype
    filter := h.filter
    mjd_obs := h.mjd_obs
    mjd_end := h.mjd_obs + h.exptime / 86400
    hastart := h.hastart
    haend := h.haend
    amstart := h.amstart
    amend := h.amend
    chipid := h.det_name }

/-- Logging levels of the logger calls in scope. -/
inductive LogLevel where
  | info
  | warning
deriving DecidableEq

/-- One emitted log record. -/
structure LogEntry where
  level : LogLevel
  msg : String
deriving DecidableEq

/-- Decides whether sub is a prefix of l. -/
def listHasPfx [DecidableEq α] : List α → List α → Bool
  | _, [] => true
  | [], _ :: _ => false
  | a :: as, b :: bs => a = b && listHasPfx as bs

/-- Decides whether l contains sub as a contiguous sublist. -/
def listHasSub [DecidableEq α] : List α → List α → Bool
  | [], sub => sub.isEmpty
  | a :: as, sub => listHasPfx (a :: as) sub || listHasSub as sub

/-- The Python membership test band in s for strings is substring
containment. -/
def pyInStr (band s : String) : Bool := listHasSub s.toList band.toList

/-- The log message emitted by make_batoid_wcs when the band is coerced. -/
def band_msg (band : String) : String :=
  "Requested band is \"" ++ band ++ ".  Setting it to \"r\""

/-- Embedding of the band handling at the top of readout.make_batoid_wcs:
if band not in ugrizy (a substring test), an info-level message is
logged when a logger is present and the band is set to r; processing
then continues with the resulting band.  Returns the band used and the
log records emitted. -/
def make_batoid_wcs_band (band : String) (hasLogger : Bool) :
    String × List LogEntry :=
  if !(pyInStr band "ugrizy") then
    ("r", if hasLogger then [⟨LogLevel.info, band_msg band⟩] else [])
  else (band, [])

/-- A concrete eimage header used for concrete evaluations: exposure
time 30 s, matching the default exp_time of CcdReadout (whose default
readout_time is 2 s). -/
def hdr_ex : EImageHeader :=
  { obsid := "OBS-1"
    mjd := 60000
    seqnum := 42
    exptime := 30
    imgtype := "SKYEXP"
    det_name := "R22_S11"
    camera := "LsstCam"
    ratel := 0
    dectel := 0
    rottelpos := 0
    filter := "r"
    mjd_obs := 60000
    hastart := 0
    haend := 0
    amstart := 1
    amend := 1 }

/-- A concrete amp record with gain 1. -/
def amp_ex1 : Amp := { Amp.init with gain := some 1, read_noise := some 5 }

/-- A concrete amp record with gain 2. -/
def amp_ex2 : Amp := { Amp.init with gain := some 2, read_noise := some 7 }

/-- A concrete CCD holding amp_ex1 under the key C10. -/
def ccd_ex1 : CCD := { CCD.init with amps := [("C10", amp_ex1)] }

/-- A concrete CCD holding amp_ex2 under the key C10. -/
def ccd_ex2 : CCD := { CCD.init with amps := [("C10", amp_ex2)] }

/-- A concrete base camera snapshot. -/
def camera_ex1 : Camera := ⟨none, [("R22_S11", ccd_ex1)]⟩

/-- A concrete update camera snapshot touching the same CCD and amp. -/
def camera_ex2 : Camera := ⟨none, [("R22_S11", ccd_ex2)]⟩

/- ----------------------------------------------------------------- -/
/- Helper lemmas                                                     -/
/- ----------------------------------------------------------------- -/

lemma cte_matrix_diag (npix : Nat) (cti : ℚ) (mt r : Nat)
    (hr : r < npix) :
    cte_matrix npix cti mt r r = (1 - cti) ^ (r + 1) := by
  simp [cte_matrix, hr]

lemma cte_matrix_off (npix : Nat) (cti : ℚ) (mt r c : Nat) (hr : r < npix)
    (hc : c < r) (hmt : r - c ≤ mt) :
    cte_matrix npix cti mt r c
      = (Nat.choose r (r - c) : ℚ) * (1 - cti) ^ (c + 1) * cti ^ (r - c) := by
  have hcn : c < npix := hc.trans hr
  have h1 : ¬ (c + 1 = r + 1) := by omega
  have h2 : max 1 (r + 1 - mt) ≤ c + 1 ∧ c + 1 < r + 1 := by omega
  have e1 : r + 1 - 1 = r := by omega
  have e2 : r + 1 - (c + 1) = r - c := by omega
  rw [cte_matrix, if_pos ⟨hr, hcn⟩, if_neg h1, if_pos h2, e1, e2]

lemma cte_matrix_zero_of_trunc (npix : Nat) (cti : ℚ) (mt r c : Nat)
    (h : mt < r - c) : cte_matrix npix cti mt r c = 0 := by
  rw [cte_matrix]
  by_cases hb : r < npix ∧ c < npix
  · rw [if_pos hb, if_neg (by omega), if_neg (by omega)]
  · rw [if_neg hb]

lemma cte_matrix_zero_of_upper (npix : Nat) (cti : ℚ) (mt r c : Nat)
    (h : r < c) : cte_matrix npix cti mt r c = 0 := by
  rw [cte_matrix]
  by_cases hb : r < npix ∧ c < npix
  · rw [if_pos hb, if_neg (by omega), if_neg (by omega)]
  · rw [if_neg hb]

lemma cte_row_sum_four (cti : ℚ) (mt r : Nat) :
    cte_row_sum 4 cti mt r
      = cte_matrix 4 cti mt r 0 + cte_matrix 4 cti mt r 1
        + cte_matrix 4 cti mt r 2 + cte_matrix 4 cti mt r 3 := by
  rw [cte_row_sum, show List.range 4 = [0, 1, 2, 3] from rfl]
  simp [List.sum_cons]
  ring

lemma dlookup_append (m l : List (String × α)) (k : String) :
    dlookup k (m ++ l)
      = match dlookup k m with
        | some v => some v
        | none => dlookup k l := by
  induction m with
  | nil => simp [dlookup]
  | cons p ps ih => by_cases h : p.1 = k <;> simp [dlookup, h, ih]

lemma dlookup_map_set (m : List (String × α)) (k : String) (v : α) :
    dlookup k (m.map (fun p => if p.1 = k then (k, v) else p))
      = if (dlookup k m).isSome then some v else none := by
  induction m with
  | nil => simp [dlookup]
  | cons p ps ih => by_cases h : p.1 = k <;> simp [dlookup, h, ih]

lemma dlookup_map_set_ne (m : List (String × α)) (k : String) (v : α)
    (k2 : String) (h : k2 ≠ k) :
    dlookup k2 (m.map (fun p => if p.1 = k then (k, v) else p))
      = dlookup k2 m := by
  induction m with
  | nil => simp
  | cons p ps ih =>
    by_cases hp : p.1 = k
    · have : ¬ (k = k2) := fun hh => h hh.symm
      simp [dlookup, hp, this, ih]
    · by_cases hp2 : p.1 = k2 <;> simp [dlookup, hp, hp2, h, ih]

lemma dlookup_dictSet_self (m : List (String × α)) (k : String) (v : α) :
    dlookup k (dictSet m k v) = some v := by
  unfold dictSet
  by_cases h : (dlookup k m).isSome
  · rw [if_pos h, dlookup_map_set, if_pos h]
  · rw [if_neg h, dlookup_append]
    have hn : dlookup k m = none := Option.not_isSome_iff_eq_none.mp h
    rw [hn]
    simp [dlookup]

lemma dlookup_dictSet_ne (m : List (String × α)) (k : String) (v : α)
    (k2 : String) (h : k2 ≠ k) :
    dlookup k2 (dictSet m k v) = dlookup k2 m := by
  unfold dictSet
  by_cases hs : (dlookup k m).isSome
  · rw [if_pos hs, dlookup_map_set_ne m k v k2 h]
  · rw [if_neg hs, dlookup_append]
    have h1 : ¬ (k = k2) := fun hh => h hh.symm
    cases hm : dlookup k2 m <;> simp [dlookup, h1, hm]

lemma dlookup_pyDictUpdate_not_mem (init : α) (upd : α → α → α) :
    ∀ (other self : List (String × α)) (k : String),
      k ∉ other.map Prod.fst →
      dlookup k (pyDictUpdate init upd self other) = dlookup k self := by
  intro other
  induction other with
  | nil => intro self k _; rfl
  | cons kv tl ih =>
    intro self k h
    simp only [List.map_cons, List.mem_cons] at h
    push_neg at h
    have step : pyDictUpdate init upd self (kv :: tl)
        = pyDictUpdate init upd
            (dictSet self kv.1 (upd ((dlookup kv.1 self).getD init) kv.2))
            tl := rfl
    rw [step, ih _ k h.2, dlookup_dictSet_ne _ _ _ _ h.1]

lemma dlookup_pyDictUpdate_mem (init : α) (upd : α → α → α) :
    ∀ (other self : List (String × α)) (k : String) (v : α),
      (other.map Prod.fst).Nodup → (k, v) ∈ other →
      dlookup k (pyDictUpdate init upd self other)
        = some (upd ((dlookup k self).getD init) v) := by
  intro other
  induction other with
  | nil => intro self k v _ hmem; cases hmem
  | cons kv tl ih =>
    intro self k v hnd hmem
    rw [List.map_cons, List.nodup_cons] at hnd
    have step : pyDictUpdate init upd self (kv :: tl)
        = pyDictUpdate init upd
            (dictSet self kv.1 (upd ((dlookup kv.1 self).getD init) kv.2))
            tl := rfl
    rw [step]
    rcases List.mem_cons.mp hmem with heq | htl
    · have hk : kv = (k, v) := heq.symm
      subst hk
      rw [dlookup_pyDictUpdate_not_mem init upd tl _ k hnd.1,
        dlookup_dictSet_self]
    · have hk : k ≠ kv.1 := by
        intro hkk
        exact hnd.1 (hkk ▸ List.mem_map_of_mem Prod.fst htl)
      rw [ih _ k v hnd.2 htl, dlookup_dictSet_ne _ _ _ _ hk]

lemma Amp.update_eq (a b : Amp) : Amp.update a b = b := rfl

lemma getD_map_gen {α β : Type} (f : α → β) (d : β) (e : α) :
    ∀ (l : List α) (p : Nat), p < l.length →
      (l.map f).getD p d = f (l.getD p e) := by
  intro l
  induction l with
  | nil => intro p hp; simp at hp
  | cons x xs ih =>
    intro p hp
    cases p with
    | zero => simp
    | succ q =>
      simp only [List.map_cons, List.getD_cons_succ]
      exact ih q (by simpa using hp)

lemma getD_zip {α β : Type} (d1 : α) (d2 : β) :
    ∀ (l1 : List α) (l2 : List β) (p : Nat),
      p < l1.length → p < l2.length →
      (l1.zip l2).getD p (d1, d2) = (l1.getD p d1, l2.getD p d2) := by
  intro l1
  induction l1 with
  | nil => intro l2 p hp _; simp at hp
  | cons x xs ih =>
    intro l2 p hp1 hp2
    cases l2 with
    | nil => simp at hp2
    | cons y ys =>
      cases p with
      | zero => simp
      | succ q =>
        simp only [List.zip_cons_cons, List.getD_cons_succ]
        exact ih ys q (by simpa using hp1) (by simpa using hp2)

lemma getD_mem {α : Type} (l : List α) (d : α) (i : Nat) (h : i < l.length) :
    l.getD i d ∈ l := by
  rw [List.getD_eq_getElem l d h]
  exact List.getElem_mem h

lemma range_getD (m j : Nat) (h : j < m) : (List.range m).getD j 0 = j := by
  rw [List.getD_eq_getElem _ _ (by simpa using h)]
  exact List.getElem_range _ _

lemma list_eq_of_getD {α : Type} (d : α) :
    ∀ (l1 l2 : List α), l1.length = l2.length →
      (∀ p, p < l1.length → l1.getD p d = l2.getD p d) → l1 = l2 := by
  intro l1
  induction l1 with
  | nil =>
    intro l2 h _
    cases l2 with
    | nil => rfl
    | cons y ys => simp at h
  | cons x xs ih =>
    intro l2 h hp
    cases l2 with
    | nil => simp at h
    | cons y ys =>
      have h0 := hp 0 (by simp)
      simp only [List.getD_cons_zero] at h0
      have ht : xs = ys := by
        refine ih ys (by simpa using h) (fun p hpp => ?_)
        have := hp (p + 1) (by simp; omega)
        simpa only [List.getD_cons_succ] using this
      rw [h0, ht]

lemma zipAdd_length (a b : List ℚ) :
    (zipAdd a b).length = min a.length b.length := by
  simp [zipAdd]

lemma zipAdd_getD (a b : List ℚ) (p : Nat) (ha : p < a.length)
    (hb : p < b.length) :
    (zipAdd a b).getD p 0 = a.getD p 0 + b.getD p 0 := by
  induction a generalizing b p with
  | nil => simp at ha
  | cons x xs ih =>
    cases b with
    | nil => simp at hb
    | cons y ys =>
      cases p with
      | zero => simp [zipAdd]
      | succ q =>
        simp only [zipAdd, List.zipWith_cons_cons, List.getD_cons_succ]
        exact ih ys q (by simpa using ha) (by simpa using hb)

lemma foldl_zipAdd_length (l : List (List ℚ)) :
    ∀ acc : List ℚ, (∀ x ∈ l, x.length = acc.length) →
      (l.foldl zipAdd acc).length = acc.length := by
  induction l with
  | nil => intro acc _; rfl
  | cons x xs ih =>
    intro acc h
    have hx : x.length = acc.length := h x (by simp)
    have hlen : (zipAdd acc x).length = acc.length := by
      rw [zipAdd_length, hx, Nat.min_self]
    rw [List.foldl_cons, ih (zipAdd acc x)
      (fun y hy => by rw [hlen]; exact h y (by simp [hy])), hlen]

lemma foldl_zipAdd_getD (l : List (List ℚ)) :
    ∀ (acc : List ℚ) (p : Nat), (∀ x ∈ l, x.length = acc.length) →
      p < acc.length →
      (l.foldl zipAdd acc).getD p 0
        = acc.getD p 0 + (l.map (fun x => x.getD p 0)).sum := by
  induction l with
  | nil => intro acc p _ _; simp
  | cons x xs ih =>
    intro acc p h hp
    have hx : x.length = acc.length := h x (by simp)
    have hlen : (zipAdd acc x).length = acc.length := by
      rw [zipAdd_length, hx, Nat.min_self]
    rw [List.foldl_cons,
      ih (zipAdd acc x) p
        (fun y hy => by rw [hlen]; exact h y (by simp [hy]))
        (by rw [hlen]; exact hp),
      zipAdd_getD acc x p hp (by rw [hx]; exact hp),
      List.map_cons, List.sum_cons]
    ring

lemma enumFrom_map_getD {α β : Type} (f : Nat × α → β) (d : β) (e : α) :
    ∀ (X : List α) (k i : Nat), i < X.length →
      ((List.enumFrom k X).map f).getD i d = f (k + i, X.getD i e) := by
  intro X
  induction X with
  | nil => intro k i hi; simp at hi
  | cons x xs ih =>
    intro k i hi
    cases i with
    | zero => simp [List.enumFrom]
    | succ q =>
      have step : ((List.enumFrom k (x :: xs)).map f).getD (q + 1) d
          = ((List.enumFrom (k + 1) xs).map f).getD q d := by
        simp [List.enumFrom]
      rw [step, ih (k + 1) q (by simpa using hi), List.getD_cons_succ,
        show k + 1 + q = k + (q + 1) by omega]

lemma apply_crosstalk_some_getD (X arrs : List (List ℚ)) (i : Nat)
    (hi : i < X.length) :
    (apply_crosstalk (some X) arrs).getD i []
      = match npSum ((arrs.zip (X.getD i [])).map
          (fun q => q.1.map (fun v => v * q.2))) with
        | none => arrs.getD i []
        | some s => zipAdd (arrs.getD i []) s := by
  have h := enumFrom_map_getD
    (fun p : Nat × List ℚ =>
      match npSum ((arrs.zip p.2).map (fun q => q.1.map (fun v => v * q.2))) with
      | none => arrs.getD p.1 []
      | some s => zipAdd (arrs.getD p.1 []) s)
    [] [] X 0 i hi
  rw [Nat.zero_add] at h
  exact h

/- ----------------------------------------------------------------- -/
/- Claim theorems                                                    -/
/- ----------------------------------------------------------------- -/

/-- C1: for every npix at least 1, cti and max_transfers mt, the CTE
matrix has diagonal entry (1-cti)^(i+1) at 0-indexed pixel i, entry
C(i, i-j) * (1-cti)^(j+1) * cti^(i-j) at j < i with i - j at most mt,
and 0 at every entry with i - j exceeding mt. -/
theorem cte_matrix_entries (npix : Nat) (cti : ℚ) (mt : Nat)
    (_hn : 1 ≤ npix) :
    (∀ i, i < npix → cte_matrix npix cti mt i i = (1 - cti) ^ (i + 1)) ∧
    (∀ i j, i < npix → j < i → i - j ≤ mt →
      cte_matrix npix cti mt i j
        = (Nat.choose i (i - j) : ℚ) * (1 - cti) ^ (j + 1) * cti ^ (i - j)) ∧
    (∀ i j, i < npix → j < npix → mt < i - j →
      cte_matrix npix cti mt i j = 0) := by
  refine ⟨fun i hi => cte_matrix_diag npix cti mt i hi,
    fun i j hi hj hmt => cte_matrix_off npix cti mt i j hi hj hmt,
    fun i j hi hj hmt => cte_matrix_zero_of_trunc npix cti mt i j hmt⟩

/-- Witness for C1 at npix 4, cti 1/3, mt 2, checking the diagonal at
pixel 2, the off-diagonal entry (3,1) and the truncated entry (3,0). -/
theorem cte_matrix_entries_witness :
    cte_matrix 4 (1/3) 2 2 2 = (1 - 1/3) ^ 3 ∧
    cte_matrix 4 (1/3) 2 3 1
      = (Nat.choose 3 2 : ℚ) * (1 - 1/3) ^ 2 * (1/3) ^ 2 ∧
    cte_matrix 4 (1/3) 2 3 0 = 0 :=
  ⟨(cte_matrix_entries 4 (1/3) 2 (by decide)).1 2 (by decide),
   (cte_matrix_entries 4 (1/3) 2 (by decide)).2.1 3 1 (by decide) (by decide)
     (by decide),
   (cte_matrix_entries 4 (1/3) 2 (by decide)).2.2 3 0 (by decide) (by decide)
     (by decide)⟩

/-- C10: the CTE matrix is lower triangular; every entry strictly above
the diagonal is exactly zero, for every npix, cti and max_transfers. -/
theorem cte_matrix_lower_triangular (npix : Nat) (cti : ℚ) (mt : Nat)
    (i j : Nat) (h : i < j) : cte_matrix npix cti mt i j = 0 :=
  cte_matrix_zero_of_upper npix cti mt i j h

/-- Witness for C10 at the entry (1, 2) of the 4 x 4 operator. -/
theorem cte_matrix_lower_triangular_witness :
    cte_matrix 4 (1/3) 20 1 2 = 0 :=
  cte_matrix_lower_triangular 4 (1/3) 20 1 2 (by decide)

/-- C6: with cti exactly 0 the CTE operator is not materialized (the
stored matrix is none) and the application stage leaves every array,
hence every charge vector, unchanged. -/
theorem cti_zero_cte_noop (nx ny : Nat) (arr : List (List ℚ)) :
    cte_matrix_opt nx 0 = none ∧ cte_matrix_opt ny 0 = none ∧
    apply_cte (cte_matrix_opt ny 0) (cte_matrix_opt nx 0) arr = arr := by
  refine ⟨rfl, rfl, rfl⟩

/-- C9: applying the readout x and y flips and then applying both flips
again restores the original array exactly, for any flag values. -/
theorem raw_flip_involutive (fx fy : Bool) (a : List (List ℚ)) :
    raw_flip fx fy (raw_flip fx fy a) = a := by
  cases fx <;> cases fy <;>
    simp [raw_flip, List.map_map, Function.comp_def]

/-- C4 counterexample: at exposure time 30 s and the default readout
time 2 s, the DARKTIME keyword written by get_primary_hdu is 30, not
30 + 2. -/
theorem darktime_counterexample :
    (get_primary_hdu hdr_ex).darktime ≠ hdr_ex.exptime + 2 := by
  norm_num [get_primary_hdu, hdr_ex]

/-- C4 amended: the dark-time keyword of the primary header equals the
exposure time alone; the readout time is not added. -/
theorem darktime_eq_exptime (h : EImageHeader) :
    (get_primary_hdu h).darktime = h.exptime := rfl

/-- C8 counterexample: for band x (not in ugrizy) the coercion to r is
logged at info level, which is not the warning level; and the band gr,
which is not one of the six band letters, is nevertheless accepted
unchanged without any log, because the membership test is a substring
test. -/
theorem band_counterexample :
    (make_batoid_wcs_band "x" true).2
        = [⟨LogLevel.info, band_msg "x"⟩] ∧
    LogLevel.info ≠ LogLevel.warning ∧
    make_batoid_wcs_band "gr" true = ("gr", []) := by
  refine ⟨by decide, by decide, by decide⟩

/-- C8 amended: for every band value that is not a substring of ugrizy
(the Python membership test on strings is substring containment), the
computation does not fail: the band is coerced to r, the coercion is
logged as an info-level message when a logger is present, and
processing continues with the corrected value. -/
theorem band_coerced_and_logged (band : String)
    (h : pyInStr band "ugrizy" = false) :
    make_batoid_wcs_band band true
      = ("r", [⟨LogLevel.info, band_msg band⟩]) := by
  simp [make_batoid_wcs_band, h]

/-- Witness for C8 at band x. -/
theorem band_coerced_and_logged_witness :
    make_batoid_wcs_band "x" true
      = ("r", [⟨LogLevel.info, band_msg "x"⟩]) :=
  band_coerced_and_logged "x" (by decide)

/-- C2: the bias and read-noise stage adds the flat CCD-level bias to
every pixel, but draws the read noise of EVERY amp image from the
read_noise value of the amp encountered last in the segment
construction loop, because the loop variable amp is stale in the noise
loop.  With two amps of read noise 5 and 7, both frames get noise
drawn with read_noise 7; the first frame does not use its own value 5. -/
theorem read_noise_uses_last_amp
    (draw : ℚ → List (List ℚ) → List (List ℚ)) :
    add_bias_and_read_noise 1000 [[[0]], [[0]]] [5, 7] draw
      = some [draw 7 [[1000]], draw 7 [[1000]]] := by
  norm_num [add_bias_and_read_noise]

/-- C7 counterexample: at npix 4, cti 1/10000 and max_transfers 20
(covering the full row width), row 0 of the operator sums to exactly
9999/10000 in exact arithmetic; the deviation from 1 is 1/10000, far
beyond any floating-point tolerance (it is not below 1/1000000). -/
theorem cte_row_sum_counterexample :
    cte_row_sum 4 (1/10000) 20 0 = 9999/10000 ∧
    (1 : ℚ) - cte_row_sum 4 (1/10000) 20 0 = 1/10000 ∧
    ¬ ((1 : ℚ) - cte_row_sum 4 (1/10000) 20 0 < 1/1000000) := by
  have h0 : cte_row_sum 4 (1/10000) 20 0 = 9999/10000 := by
    rw [cte_row_sum_four, cte_matrix_diag 4 (1/10000) 20 0 (by omega),
      cte_matrix_zero_of_upper 4 (1/10000) 20 0 1 (by omega),
      cte_matrix_zero_of_upper 4 (1/10000) 20 0 2 (by omega),
      cte_matrix_zero_of_upper 4 (1/10000) 20 0 3 (by omega)]
    norm_num
  refine ⟨h0, by rw [h0]; norm_num, by rw [h0]; norm_num⟩

/-- C7 amended: at npix 4 and cti 1/10000, in exact arithmetic every
row of the operator sums to exactly 1 - cti = 9999/10000 when
max_transfers covers the full row width, and for every max_transfers
the row sums are at most 1. -/
theorem cte_row_sums (mt r : Nat) (hr : r < 4) :
    (4 ≤ mt → cte_row_sum 4 (1/10000) mt r = 9999/10000) ∧
    cte_row_sum 4 (1/10000) mt r ≤ 1 := by
  interval_cases r
  · constructor
    · intro h
      rw [cte_row_sum_four, cte_matrix_diag 4 (1/10000) mt 0 (by omega),
        cte_matrix_zero_of_upper 4 (1/10000) mt 0 1 (by omega), cte_matrix_zero_of_upper 4 (1/10000) mt 0 2 (by omega), cte_matrix_zero_of_upper 4 (1/10000) mt 0 3 (by omega)]
      norm_num
    · rw [cte_row_sum_four, cte_matrix_diag 4 (1/10000) mt 0 (by omega),
        cte_matrix_zero_of_upper 4 (1/10000) mt 0 1 (by omega), cte_matrix_zero_of_upper 4 (1/10000) mt 0 2 (by omega), cte_matrix_zero_of_upper 4 (1/10000) mt 0 3 (by omega)]
      norm_num
  · rw [cte_row_sum_four, cte_matrix_diag 4 (1/10000) mt 1 (by omega),
      cte_matrix_zero_of_upper 4 (1/10000) mt 1 2 (by omega), cte_matrix_zero_of_upper 4 (1/10000) mt 1 3 (by omega)]
    constructor
    · intro h
      rw [cte_matrix_off 4 (1/10000) mt 1 0 (by omega) (by omega) (by omega)]
      norm_num [Nat.choose]
    · by_cases h1 : 1 ≤ mt
      · rw [cte_matrix_off 4 (1/10000) mt 1 0 (by omega) (by omega) (by omega)]
        norm_num [Nat.choose]
      · rw [cte_matrix_zero_of_trunc 4 (1/10000) mt 1 0 (by omega)]
        norm_num
  · rw [cte_row_sum_four, cte_matrix_diag 4 (1/10000) mt 2 (by omega),
      cte_matrix_zero_of_upper 4 (1/10000) mt 2 3 (by omega)]
    constructor
    · intro h
      rw [cte_matrix_off 4 (1/10000) mt 2 0 (by omega) (by omega) (by omega), cte_matrix_off 4 (1/10000) mt 2 1 (by omega) (by omega) (by omega)]
      norm_num [Nat.choose]
    · by_cases h2 : 2 ≤ mt
      · rw [cte_matrix_off 4 (1/10000) mt 2 0 (by omega) (by omega) (by omega), cte_matrix_off 4 (1/10000) mt 2 1 (by omega) (by omega) (by omega)]
        norm_num [Nat.choose]
      · by_cases h1 : 1 ≤ mt
        · rw [cte_matrix_zero_of_trunc 4 (1/10000) mt 2 0 (by omega), cte_matrix_off 4 (1/10000) mt 2 1 (by omega) (by omega) (by omega)]
          norm_num [Nat.choose]
        · rw [cte_matrix_zero_of_trunc 4 (1/10000) mt 2 0 (by omega), cte_matrix_zero_of_trunc 4 (1/10000) mt 2 1 (by omega)]
          norm_num
  · rw [cte_row_sum_four, cte_matrix_diag 4 (1/10000) mt 3 (by omega)]
    constructor
    · intro h
      rw [cte_matrix_off 4 (1/10000) mt 3 0 (by omega) (by omega) (by omega), cte_matrix_off 4 (1/10000) mt 3 1 (by omega) (by omega) (by omega), cte_matrix_off 4 (1/10000) mt 3 2 (by omega) (by omega) (by omega)]
      norm_num [Nat.choose]
    · by_cases h3 : 3 ≤ mt
      · rw [cte_matrix_off 4 (1/10000) mt 3 0 (by omega) (by omega) (by omega), cte_matrix_off 4 (1/10000) mt 3 1 (by omega) (by omega) (by omega), cte_matrix_off 4 (1/10000) mt 3 2 (by omega) (by omega) (by omega)]
        norm_num [Nat.choose]
      · by_cases h2 : 2 ≤ mt
        · rw [cte_matrix_zero_of_trunc 4 (1/10000) mt 3 0 (by omega), cte_matrix_off 4 (1/10000) mt 3 1 (by omega) (by omega) (by omega), cte_matrix_off 4 (1/10000) mt 3 2 (by omega) (by omega) (by omega)]
          norm_num [Nat.choose]
        · by_cases h1 : 1 ≤ mt
          · rw [cte_matrix_zero_of_trunc 4 (1/10000) mt 3 0 (by omega), cte_matrix_zero_of_trunc 4 (1/10000) mt 3 1 (by omega), cte_matrix_off 4 (1/10000) mt 3 2 (by omega) (by omega) (by omega)]
            norm_num [Nat.choose]
          · rw [cte_matrix_zero_of_trunc 4 (1/10000) mt 3 0 (by omega), cte_matrix_zero_of_trunc 4 (1/10000) mt 3 1 (by omega), cte_matrix_zero_of_trunc 4 (1/10000) mt 3 2 (by omega)]
            norm_num

/-- Witness for C7 at max_transfers 5 and row 3. -/
theorem cte_row_sums_witness :
    cte_row_sum 4 (1/10000) 5 3 = 9999/10000 ∧
    cte_row_sum 4 (1/10000) 5 3 ≤ 1 :=
  ⟨(cte_row_sums 5 3 (by decide)).1 (by decide),
   (cte_row_sums 5 3 (by decide)).2⟩

/-- C3 counterexample: Camera.update mutates the receiver in place (the
Python method returns None; its only effect is on self), so the base
snapshot after the merge is the merged state, not the original: with a
base holding one CCD with one amp of gain 1 and an update holding the
same keys with gain 2, the post-state of the base differs from its
pre-state, refuting that the merge never mutates the base records. -/
theorem camera_update_mutates :
    Camera.update camera_ex1 camera_ex2 ≠ camera_ex1 := by decide

/-- C3 amended: Camera.update merges the update into the base in place
(the receiver is mutated; no new snapshot is produced): in the
post-state of the base, CCD keys absent from the update are untouched,
CCD keys present in the update are merged at the amplifier level with
the update winning (an amp present in the update fully overwrites the
stored amp record, amps absent from the update are untouched), and
detector-level fields such as the crosstalk matrix come from the
update. -/
theorem camera_update_merge (base upd : Camera)
    (hnodup : (upd.ccds.map Prod.fst).Nodup) :
    (∀ k, k ∉ upd.ccds.map Prod.fst →
      dlookup k (Camera.update base upd).ccds = dlookup k base.ccds) ∧
    (∀ k c, (k, c) ∈ upd.ccds →
      dlookup k (Camera.update base upd).ccds
        = some (CCD.update ((dlookup k base.ccds).getD CCD.init) c)) ∧
    (∀ old c : CCD, (c.amps.map Prod.fst).Nodup →
      (CCD.update old c).xtalk = c.xtalk ∧
      (∀ a, a ∉ c.amps.map Prod.fst →
        dlookup a (CCD.update old c).amps = dlookup a old.amps) ∧
      (∀ a amp, (a, amp) ∈ c.amps →
        dlookup a (CCD.update old c).amps = some amp)) := by
  refine ⟨?_, ?_, ?_⟩
  · intro k hk
    exact dlookup_pyDictUpdate_not_mem CCD.init CCD.update upd.ccds
      base.ccds k hk
  · intro k c hmem
    exact dlookup_pyDictUpdate_mem CCD.init CCD.update upd.ccds
      base.ccds k c hnodup hmem
  · intro old c hnd
    refine ⟨rfl, ?_, ?_⟩
    · intro a ha
      exact dlookup_pyDictUpdate_not_mem Amp.init Amp.update c.amps
        old.amps a ha
    · intro a amp hmem
      rw [show (CCD.update old c).amps
          = pyDictUpdate Amp.init Amp.update old.amps c.amps from rfl,
        dlookup_pyDictUpdate_mem Amp.init Amp.update c.amps old.amps
          a amp hnd hmem, Amp.update_eq]

/-- Witness for C3 on the concrete snapshots: the merged camera stores
the merged CCD under the shared key, and the merged CCD stores the
update amp record unchanged under the shared amp key. -/
theorem camera_update_merge_witness :
    dlookup "R22_S11" (Camera.update camera_ex1 camera_ex2).ccds
      = some (CCD.update ((dlookup "R22_S11" camera_ex1.ccds).getD CCD.init)
          ccd_ex2) ∧
    dlookup "C10" (CCD.update ccd_ex1 ccd_ex2).amps = some amp_ex2 :=
  ⟨(camera_update_merge camera_ex1 camera_ex2 (by decide)).2.1 "R22_S11"
     ccd_ex2 (by decide),
   ((camera_update_merge camera_ex1 camera_ex2 (by decide)).2.2 ccd_ex1
     ccd_ex2 (by decide)).2.2 "C10" amp_ex2 (by decide)⟩

/-- C5: crosstalk with no coefficient matrix returns the inputs
unchanged; with a coefficient matrix, output i is input i plus the sum
over j of coeffs[i][j] times input j (elementwise); and the concrete
2 x 2 matrix [[0, 1/100], [2/100, 0]] applied to [A, B] yields exactly
[A + (1/100) B, B + (2/100) A]. -/
theorem apply_crosstalk_spec :
    (∀ arrs : List (List ℚ), apply_crosstalk none arrs = arrs) ∧
    (∀ (X arrs : List (List ℚ)) (n : Nat),
      (∀ a ∈ arrs, a.length = n) → X.length = arrs.length →
      (∀ row ∈ X, row.length = arrs.length) →
      ∀ i p, i < arrs.length → p < n →
        ((apply_crosstalk (some X) arrs).getD i []).getD p 0
          = (arrs.getD i []).getD p 0
            + ((List.range arrs.length).map (fun j =>
                (X.getD i []).getD j 0 * (arrs.getD j []).getD p 0)).sum) ∧
    (∀ A B : List ℚ, A.length = B.length →
      apply_crosstalk (some [[0, 1/100], [2/100, 0]]) [A, B]
        = [zipAdd A (B.map (fun v => 1/100 * v)),
           zipAdd B (A.map (fun v => 2/100 * v))]) := by
  refine ⟨fun arrs => rfl, ?_, ?_⟩
  · intro X arrs n h1 h2 h3 i p hi hp
    have hiX : i < X.length := by rw [h2]; exact hi
    rw [apply_crosstalk_some_getD X arrs i hiX]
    have hrowlen : (X.getD i []).length = arrs.length :=
      h3 (X.getD i []) (getD_mem X [] i hiX)
    have htermslen :
        ((arrs.zip (X.getD i [])).map
          (fun q => q.1.map (fun v => v * q.2))).length = arrs.length := by
      rw [List.length_map, List.length_zip, hrowlen, Nat.min_self]
    have htermsall : ∀ t ∈ (arrs.zip (X.getD i [])).map
        (fun q => q.1.map (fun v => v * q.2)), t.length = n := by
      intro t ht
      obtain ⟨q, hq, rfl⟩ := List.mem_map.mp ht
      simp [h1 q.1 (List.of_mem_zip hq).1]
    obtain ⟨t0, rest, hte⟩ := List.exists_cons_of_ne_nil
      (List.ne_nil_of_length_pos (by rw [htermslen]; omega))
    rw [hte]
    simp only [npSum]
    have hA : (arrs.getD i []).length = n := h1 _ (getD_mem arrs [] i hi)
    have ht0len : t0.length = n := htermsall t0 (by rw [hte]; simp)
    have hrestall : ∀ x ∈ rest, x.length = t0.length := by
      intro x hx
      rw [ht0len]
      exact htermsall x (by rw [hte]; simp [hx])
    rw [zipAdd_getD (arrs.getD i []) (rest.foldl zipAdd t0) p
        (by rw [hA]; exact hp)
        (by rw [foldl_zipAdd_length rest t0 hrestall, ht0len]; exact hp),
      foldl_zipAdd_getD rest t0 p hrestall (by rw [ht0len]; exact hp)]
    have hsum : t0.getD p 0 + (rest.map (fun x => x.getD p 0)).sum
        = (((arrs.zip (X.getD i [])).map
            (fun q => q.1.map (fun v => v * q.2))).map
              (fun x => x.getD p 0)).sum := by
      rw [hte, List.map_cons, List.sum_cons]
    rw [hsum]
    have hlist : (((arrs.zip (X.getD i [])).map
            (fun q => q.1.map (fun v => v * q.2))).map
              (fun x => x.getD p 0))
        = (List.range arrs.length).map (fun j =>
            (X.getD i []).getD j 0 * (arrs.getD j []).getD p 0) := by
      refine list_eq_of_getD 0 _ _
        (by rw [List.length_map, List.length_map, List.length_zip, hrowlen,
          Nat.min_self, List.length_map, List.length_range]) ?_
      intro q hq
      have hqa : q < arrs.length := by
        simp only [List.length_map, List.length_zip, hrowlen,
          Nat.min_self] at hq
        exact hq
      have hqz : q < (arrs.zip (X.getD i [])).length := by
        rw [List.length_zip, hrowlen, Nat.min_self]
        exact hqa
      rw [getD_map_gen (fun x => x.getD p 0) 0 []
          ((arrs.zip (X.getD i [])).map (fun q => q.1.map (fun v => v * q.2)))
          q (by rw [htermslen]; exact hqa),
        getD_map_gen (fun t => t.1.map (fun v => v * t.2)) [] ([], 0)
          (arrs.zip (X.getD i [])) q hqz,
        getD_zip [] 0 arrs (X.getD i []) q hqa (by rw [hrowlen]; exact hqa)]
      dsimp only
      rw [getD_map_gen (fun v => v * (X.getD i []).getD q 0) 0 0
          (arrs.getD q []) p (by rw [h1 _ (getD_mem arrs [] q hqa)]; exact hp),
        getD_map_gen (fun j => (X.getD i []).getD j 0 * (arrs.getD j []).getD p 0)
          0 0 (List.range arrs.length) q (by simpa using hqa),
        range_getD arrs.length q hqa]
      ring
    rw [hlist]
  · intro A B hAB
    have e : apply_crosstalk (some [[0, 1/100], [2/100, 0]]) [A, B]
        = [zipAdd A (zipAdd (A.map (fun v => v * 0))
              (B.map (fun v => v * (1/100)))),
           zipAdd B (zipAdd (A.map (fun v => v * (2/100)))
              (B.map (fun v => v * 0)))] := rfl
    have h1 : zipAdd A (zipAdd (A.map (fun v => v * 0))
          (B.map (fun v => v * (1/100))))
        = zipAdd A (B.map (fun v => 1/100 * v)) := by
      refine list_eq_of_getD 0 _ _
        (by simp [zipAdd_length, hAB]) ?_
      intro p hp
      have hpA : p < A.length := by
        simp [zipAdd_length] at hp
        omega
      have hpB : p < B.length := by rw [← hAB]; exact hpA
      rw [zipAdd_getD A (zipAdd (A.map (fun v => v * 0))
            (B.map (fun v => v * (1/100)))) p hpA
          (by rw [zipAdd_length]; simp; omega),
        zipAdd_getD (A.map (fun v => v * 0)) (B.map (fun v => v * (1/100))) p
          (by simpa using hpA) (by simpa using hpB),
        getD_map_gen (fun v => v * 0) 0 0 A p hpA,
        getD_map_gen (fun v => v * (1/100)) 0 0 B p hpB,
        zipAdd_getD A (B.map (fun v => 1/100 * v)) p hpA (by simpa using hpB),
        getD_map_gen (fun v => 1/100 * v) 0 0 B p hpB]
      ring
    have h2 : zipAdd B (zipAdd (A.map (fun v => v * (2/100)))
          (B.map (fun v => v * 0)))
        = zipAdd B (A.map (fun v => 2/100 * v)) := by
      refine list_eq_of_getD 0 _ _
        (by simp [zipAdd_length, hAB]) ?_
      intro p hp
      have hpB : p < B.length := by
        simp [zipAdd_length] at hp
        omega
      have hpA : p < A.length := by rw [hAB]; exact hpB
      rw [zipAdd_getD B (zipAdd (A.map (fun v => v * (2/100)))
            (B.map (fun v => v * 0))) p hpB
          (by rw [zipAdd_length]; simp; omega),
        zipAdd_getD (A.map (fun v => v * (2/100))) (B.map (fun v => v * 0)) p
          (by simpa using hpA) (by simpa using hpB),
        getD_map_gen (fun v => v * (2/100)) 0 0 A p hpA,
        getD_map_gen (fun v => v * 0) 0 0 B p hpB,
        zipAdd_getD B (A.map (fun v => 2/100 * v)) p hpB (by simpa using hpA),
        getD_map_gen (fun v => 2/100 * v) 0 0 A p hpA]
      ring
    rw [e, h1, h2]

/-- Witness for C5: the general formula evaluated on the arrays
[1, 2] and [3, 4] with the 2 x 2 example matrix, at amp 0 and pixel 1,
and the concrete 2 x 2 shape on the same arrays. -/
theorem apply_crosstalk_spec_witness :
    ((apply_crosstalk (some [[0, 1/100], [2/100, 0]])
        [[1, 2], [3, 4]]).getD 0 []).getD 1 0
      = (([[1, 2], [3, 4]] : List (List ℚ)).getD 0 []).getD 1 0
        + ((List.range 2).map (fun j =>
            (([[0, 1/100], [2/100, 0]] : List (List ℚ)).getD 0 []).getD j 0
              * (([[1, 2], [3, 4]] : List (List ℚ)).getD j []).getD 1 0)).sum ∧
    apply_crosstalk (some [[0, 1/100], [2/100, 0]]) [[1, 2], [3, 4]]
      = [zipAdd [1, 2] ([3, 4].map (fun v => 1/100 * v)),
         zipAdd [3, 4] ([1, 2].map (fun v => 2/100 * v))] :=
  ⟨apply_crosstalk_spec.2.1 [[0, 1/100], [2/100, 0]] [[1, 2], [3, 4]] 2
      (by simp) (by simp) (by simp) 0 1 (by simp) (by omega),
   apply_crosstalk_spec.2.2 [1, 2] [3, 4] (by simp)⟩

end ImSim
